import Mathlib

/-!
Verification development for the event-manager spreadsheet-import pipeline.

The definitions below are shallow embeddings of the TypeScript source:
- `src/app/(protected)/events/[eventId]/participants/page.tsx` (per-event roster),
- `src/app/(protected)/print/badge/page.tsx` global-participants page
  (its second document, `participants/page.tsx`),
- `src/app/(protected)/events/[eventId]/notify/_components/ParticipantPickerModal.tsx`,
- `src/lib/validators.ts`, `src/lib/api.ts`.

Spreadsheet cells reach the code as JavaScript values and are immediately
coerced with `String(v ?? "")`; the embedding therefore takes cells as
`String`, with a missing cell read as `""`.  JavaScript string truthiness
(`s ? a : b`) is modelled as a test against `""`.
-/

/-! ### Character-level string utilities (JS `trim`, `toLowerCase`, `replace`) -/

/-- Whitespace as matched by the JavaScript `\s` class (ASCII part). -/
def isWsChar (c : Char) : Bool :=
  c = ' ' || c = '\t' || c = '\n' || c = '\r' || c = '\x0b' || c = '\x0c'

/-- Strip leading and trailing whitespace from a char list (JS `String.prototype.trim`):
drop trailing whitespace (through a reversal), then leading whitespace. -/
def trimChars (cs : List Char) : List Char :=
  ((cs.reverse.dropWhile isWsChar).reverse).dropWhile isWsChar

/-- JS `s.trim()`. -/
def trimStr (s : String) : String := ⟨trimChars s.data⟩

/-- JS `s.toLowerCase()` (ASCII case folding; other code points are unchanged). -/
def lowerStr (s : String) : String := ⟨s.data.map Char.toLower⟩

/-- JS `s.replace(/\s+/g, "")`: remove every whitespace character. -/
def stripWsStr (s : String) : String := ⟨s.data.filter (fun c => !isWsChar c)⟩

/-- JS `s.replace(/\D/g, "")` and `s.replace(/[^\d]/g, "")`: keep only digits. -/
def digitsOnly (s : String) : String := ⟨s.data.filter Char.isDigit⟩

/-! ### Per-event roster page (`events/[eventId]/participants/page.tsx`) -/

/-- Internal field keys of the roster `Participant` type. -/
inductive RField
  | name | email | phone | company | role | ticketType | note
  deriving DecidableEq, BEq

/-- The roster `Participant` record. -/
structure Participant where
  name : String
  email : Option String := none
  phone : Option String := none
  company : Option String := none
  role : Option String := none
  ticketType : Option String := none
  note : Option String := none
  deriving DecidableEq

/-- `HEADER_ALIASES` of the roster page, in source order. -/
def rosterAliases : List (String × RField) :=
  [("이름", .name), ("이메일", .email), ("전화번호", .phone), ("휴대폰", .phone),
   ("회사", .company), ("소속", .company), ("직함", .role), ("역할", .role),
   ("티켓", .ticketType), ("티켓구분", .ticketType), ("비고", .note), ("메모", .note),
   ("name", .name), ("email", .email), ("phone", .phone), ("company", .company),
   ("role", .role), ("title", .role), ("tickettype", .ticketType),
   ("ticket_type", .ticketType), ("note", .note)]

/-- Dictionary lookup `ALIASES[s]`. -/
def lookupAlias {κ : Type} (t : List (String × κ)) (s : String) : Option κ :=
  (t.find? (fun p => p.1 = s)).map (fun p => p.2)

/-- `sanitizeHeader`: trim, remove interior whitespace, lower-case. -/
def sanitizeHeader (s : String) : String := lowerStr (stripWsStr (trimStr s))

/-- `ALIASES[h] ?? ALIASES[sanitizeHeader(h)]` for an already-trimmed header cell. -/
def resolveCell {κ : Type} (t : List (String × κ)) (h : String) : Option κ :=
  match lookupAlias t h with
  | some k => some k
  | none => lookupAlias t (sanitizeHeader h)

/-- `headerMap`: the raw header row is trimmed cell-wise, then each cell resolved. -/
def headerMapOf {κ : Type} (t : List (String × κ)) (headerRow : List String) :
    List (Option κ) :=
  headerRow.map (fun c => resolveCell t (trimStr c))

/-- Walk the header map with a running column index, assigning each mapped,
trimmed, non-empty cell into the record (later columns overwrite earlier ones,
as the source `forEach` does). -/
def buildAux {κ ρ : Type} (assign : κ → String → ρ → ρ) (row : List String) :
    List (Option κ) → Nat → ρ → ρ
  | [], _, o => o
  | none :: ks, i, o => buildAux assign row ks (i + 1) o
  | some f :: ks, i, o =>
      let text := trimStr (row.getD i "")
      buildAux assign row ks (i + 1) (if text = "" then o else assign f text o)

/-- Build one candidate record from a data row (the body of the source row loop). -/
def buildObj {κ ρ : Type} (assign : κ → String → ρ → ρ) (init : ρ)
    (hm : List (Option κ)) (row : List String) : ρ :=
  buildAux assign row hm 0 init

/-- The per-row rejection warning, `i` being the 0-based index in the sheet array:
the source pushes `(i+1) + "행: 이름이 비어 있어 제외했습니다."`. -/
def warnText (n : Nat) : String := toString n ++ "행: 이름이 비어 있어 제외했습니다."

/-- The data-row loop (`for i = 1; i < aoa.length; i++`), generic in the record
type: returns accepted records in order plus warnings for rejected rows.
`i` is the current 0-based sheet row index (the loop starts at 1). -/
def parseRows {κ ρ : Type} (assign : κ → String → ρ → ρ) (getName : ρ → String)
    (init : ρ) (hm : List (Option κ)) :
    List (List String) → Nat → List ρ × List String
  | [], _ => ([], [])
  | row :: rest, i =>
      let obj := buildObj assign init hm row
      let r := parseRows assign getName init hm rest (i + 1)
      if getName obj = "" then (r.1, warnText (i + 1) :: r.2) else (obj :: r.1, r.2)

/-- Field assignment of the roster row loop. -/
def assignR : RField → String → Participant → Participant
  | .email, t, o => { o with email := some t }
  | .phone, t, o => { o with phone := some t }
  | .company, t, o => { o with company := some t }
  | .role, t, o => { o with role := some t }
  | .ticketType, t, o => { o with ticketType := some t }
  | .note, t, o => { o with note := some t }
  | .name, t, o => { o with name := t }

/-- The `const obj: Participant = {name: ""}` initializer. -/
def rInit : Participant := { name := "" }

/-- Error message for an empty sheet. -/
def emptySheetMsg : String := "엑셀에 데이터가 없습니다."

/-- Error message when no header cell maps to `name`. -/
def missingNameMsg : String :=
  "헤더(첫 줄)에 \x27이름\x27 컬럼이 필요합니다. 샘플 엑셀을 다운로드해서 형식을 맞춰주세요."

/-- `parseFileToParticipants` from the sheet array (2-D cell grid) onward. -/
def parseAoa (aoa : List (List String)) :
    Except String (List Participant × List String) :=
  match aoa with
  | [] => .error emptySheetMsg
  | header :: dataRows =>
      let hm := headerMapOf rosterAliases header
      if hm.any (fun k => decide (k = some RField.name)) then
        .ok (parseRows assignR (fun o => o.name) rInit hm dataRows 1)
      else
        .error missingNameMsg

/-- The roster dedup key of `handleFile`:
`(r.email ? "email:" + r.email : "name:" + r.name + "|phone:" + (r.phone ?? "")).toLowerCase()`. -/
def rosterKey (r : Participant) : String :=
  lowerStr (if r.email.getD "" ≠ ""
    then "email:" ++ r.email.getD ""
    else "name:" ++ r.name ++ "|phone:" ++ r.phone.getD "")

/-- Keep the first occurrence of each key, threading the set of seen keys. -/
def dedupAux {α : Type} (k : α → String) (seen : List String) : List α → List α
  | [] => []
  | x :: xs =>
      if k x ∈ seen then dedupAux k seen xs
      else x :: dedupAux k (k x :: seen) xs

/-- The seen-key set after walking a list (used to reason about concatenations). -/
def seenAfter {α : Type} (k : α → String) (seen : List String) : List α → List String
  | [] => seen
  | x :: xs =>
      if k x ∈ seen then seenAfter k seen xs
      else seenAfter k (k x :: seen) xs

/-- First-occurrence dedup with an initially empty seen set. -/
def dedupByKey {α : Type} (k : α → String) (xs : List α) : List α :=
  dedupAux k [] xs

/-- The roster merge: `[...rows, ...parsed]` (existing first), then first-wins dedup. -/
def rosterMerge (existing parsed : List Participant) : List Participant :=
  dedupByKey rosterKey (existing ++ parsed)

/-- Outcome of the roster `handleFile` past the extension check. -/
structure RosterOutcome where
  collection : List Participant
  warnings : List String
  failMsg : Option String
  deriving DecidableEq

/-- `handleFile` of the roster page from the sheet array onward: on a parse
error the stored collection is untouched (and warnings were reset); otherwise
the merged collection replaces it. -/
def rosterUpload (stored : List Participant) (aoa : List (List String)) :
    RosterOutcome :=
  match parseAoa aoa with
  | .error e => ⟨stored, [], some e⟩
  | .ok (rows, ws) => ⟨rosterMerge stored rows, ws, none⟩

/-! ### `lib/validators.ts` -/

/-- `onlyDigits` / `normalizePhoneDigits`: keep only digits (no trim in the source). -/
def normalizePhoneDigits (s : String) : String := digitsOnly s

/-- `normalizeEmail`: trim then lower-case. -/
def normalizeEmail (s : String) : String := lowerStr (trimStr s)

/-- Split a char list at every occurrence of a separator char. -/
def splitOnChar (c : Char) : List Char → List (List Char)
  | [] => [[]]
  | x :: xs =>
      match splitOnChar c xs with
      | [] => [[]]
      | g :: gs => if x = c then [] :: g :: gs else (x :: g) :: gs

/-- Whether a char list has a `.` that is neither its first nor its last element. -/
def hasInteriorDot (cs : List Char) : Bool := ((cs.drop 1).dropLast).contains '.'

/-- `isValidEmail`: the regex `^[^\s@]+@[^\s@]+\.[^\s@]+$` applied to the
normalized email.  The test succeeds exactly when the string splits at a single
`@` into a non-empty whitespace-free local part and a remainder that is
whitespace-free and has an interior dot. -/
def isValidEmail (email : String) : Bool :=
  let v := normalizeEmail email
  match splitOnChar '@' v.data with
  | [l, r] =>
      decide (l ≠ []) && l.all (fun c => !isWsChar c) &&
      r.all (fun c => !isWsChar c) && hasInteriorDot r
  | _ => false

/-! ### Notification picker (`ParticipantPickerModal.tsx`) -/

/-- A picker `Row` (a string record with keys name/email/company/phone; a
missing key reads as `""`). -/
structure PickRow where
  name : String := ""
  email : String := ""
  company : String := ""
  phone : String := ""
  deriving DecidableEq

/-- `normalizeEmailKey` of the picker: trim then lower-case. -/
def normalizeEmailKey (v : String) : String := lowerStr (trimStr v)

/-- `normalizePhoneKey` of the picker: digits only, then trim. -/
def normalizePhoneKey (v : String) : String := trimStr (digitsOnly v)

/-- `keyOf` of `addSelected`: normalized email when the trimmed email is
non-empty, else trimmed lower-cased name plus phone digits. -/
def keyOf (r : PickRow) : String :=
  let email := trimStr r.email
  if email ≠ "" then "email:" ++ normalizeEmailKey email
  else "name:" ++ lowerStr (trimStr r.name) ++ "|phone:" ++ normalizePhoneKey r.phone

/-- `addSelected`: dedup `[...existingRows, ...mapped]` under `keyOf`, then keep
only rows whose key was not already present among `existingRows`.  Returns
(deduped concatenation, rows handed to `onAddRows`). -/
def pickerAdd (existingRows mapped : List PickRow) : List PickRow × List PickRow :=
  let dedup := dedupByKey keyOf (existingRows ++ mapped)
  let existingKeys := existingRows.map keyOf
  (dedup, dedup.filter (fun r => !(existingKeys.contains (keyOf r))))

/-! ### Global-participants page (second document of `print/badge/page.tsx`) -/

/-- The stored `Person` of the global collection. -/
structure Person where
  id : String
  name : String
  email : Option String := none
  phone : Option String := none
  company : Option String := none
  role : Option String := none
  createdAt : String
  deriving DecidableEq

/-- An `UploadRow` parsed from the global upload sheet. -/
structure UploadRow where
  name : String
  email : Option String := none
  phone : Option String := none
  company : Option String := none
  role : Option String := none
  deriving DecidableEq

/-- Field keys of `UploadRow`. -/
inductive GField
  | name | email | phone | company | role
  deriving DecidableEq, BEq

/-- `HEADER_ALIASES` of the global page, in source order. -/
def globalAliases : List (String × GField) :=
  [("이름", .name), ("이메일", .email), ("전화번호", .phone), ("휴대폰", .phone),
   ("회사", .company), ("소속", .company), ("직함", .role), ("역할", .role),
   ("직함/역할", .role),
   ("name", .name), ("email", .email), ("phone", .phone), ("company", .company),
   ("role", .role), ("title", .role)]

/-- Field assignment of the global row loop (`(obj as any)[key] = text`). -/
def assignG : GField → String → UploadRow → UploadRow
  | .email, t, o => { o with email := some t }
  | .phone, t, o => { o with phone := some t }
  | .company, t, o => { o with company := some t }
  | .role, t, o => { o with role := some t }
  | .name, t, o => { o with name := t }

/-- The `const obj: UploadRow = {name: ""}` initializer. -/
def gInit : UploadRow := { name := "" }

/-- `parseFileToRows` of the global page from the sheet array onward. -/
def parseAoaG (aoa : List (List String)) :
    Except String (List UploadRow × List String) :=
  match aoa with
  | [] => .error emptySheetMsg
  | header :: dataRows =>
      let hm := headerMapOf globalAliases header
      if hm.any (fun k => decide (k = some GField.name)) then
        .ok (parseRows assignG (fun o => o.name) gInit hm dataRows 1)
      else
        .error missingNameMsg

/-- `p.email ? normalizeEmail(p.email) : ""` (JS truthiness on the field). -/
def eKeyOf (p : Person) : String :=
  if p.email.getD "" ≠ "" then normalizeEmail (p.email.getD "") else ""

/-- `p.phone ? normalizePhoneDigits(p.phone) : ""`. -/
def pKeyOf (p : Person) : String :=
  if p.phone.getD "" ≠ "" then normalizePhoneDigits (p.phone.getD "") else ""

/-- Skip condition of the global dedup loop: a non-empty normalized email
already seen, or a non-empty phone-digit key already seen. -/
def gSkip (seenE seenP : List String) (p : Person) : Prop :=
  (eKeyOf p ≠ "" ∧ eKeyOf p ∈ seenE) ∨ (pKeyOf p ≠ "" ∧ pKeyOf p ∈ seenP)

instance (seenE seenP : List String) (p : Person) : Decidable (gSkip seenE seenP p) := by
  unfold gSkip; infer_instance

/-- `if (e) seenEmail.add(e)`. -/
def gAddE (seenE : List String) (p : Person) : List String :=
  if eKeyOf p ≠ "" then eKeyOf p :: seenE else seenE

/-- `if (ph) seenPhone.add(ph)`. -/
def gAddP (seenP : List String) (p : Person) : List String :=
  if pKeyOf p ≠ "" then pKeyOf p :: seenP else seenP

/-- The global dedup loop over `merged`, threading both seen sets. -/
def gdAux (seenE seenP : List String) : List Person → List Person
  | [] => []
  | p :: ps =>
      if gSkip seenE seenP p then gdAux seenE seenP ps
      else p :: gdAux (gAddE seenE p) (gAddP seenP p) ps

/-- Both seen sets after walking a list. -/
def gAfter (seenE seenP : List String) : List Person → List String × List String
  | [] => (seenE, seenP)
  | p :: ps =>
      if gSkip seenE seenP p then gAfter seenE seenP ps
      else gAfter (gAddE seenE p) (gAddP seenP p) ps

/-- The global fallback dedup (`seenEmail`/`seenPhone` start empty). -/
def globalDedup (ps : List Person) : List Person := gdAux [] [] ps

/-- The `rows.map` of the fallback branch: each upload row becomes a `Person`
with a generated id and the shared `now` timestamp. -/
def mapUpload (ids : Nat → String) (now : String) (rows : List UploadRow) :
    List Person :=
  rows.enum.map (fun ir =>
    { id := ids ir.1, name := ir.2.name, email := ir.2.email, phone := ir.2.phone,
      company := ir.2.company, role := ir.2.role, createdAt := now })

/-! ### `lib/api.ts` and the upload flow of the global page -/

/-- `ApiResult<T>`. -/
inductive ApiResult (α : Type)
  | ok (data : α)
  | err (message : String) (status : Option Nat)
  deriving DecidableEq

/-- The bulk endpoint response `{inserted, updated?}`. -/
structure BulkResp where
  inserted : Nat
  updated : Option Nat := none
  deriving DecidableEq

/-- The only part of the response JSON the helper reads: the `message` field. -/
structure JsonView where
  message : Option String
  deriving DecidableEq

/-- What one `fetch` can come back with: a response (ok flag, status, body
text), or a thrown network error. -/
inductive FetchOutcome
  | resp (ok : Bool) (status : Nat) (bodyText : String)
  | netErr (msg : String)

/-- The try-block body of `postJson` as an `Except` computation: a thrown
network error or a `JSON.parse` failure surfaces as `.error`. `parseJson`
stands for the external `JSON.parse` (returning `null` for empty text). -/
def postJsonBody (parseJson : String → Except String (Option JsonView))
    (f : FetchOutcome) : Except String (ApiResult (Option JsonView)) :=
  match f with
  | .netErr m => .error m
  | .resp ok status text => do
      let json ← if text = "" then pure none else parseJson text
      if ok then
        pure (.ok json)
      else
        pure (.err ((json.bind (fun j => j.message)).getD
          ("Request failed (" ++ toString status ++ ")")) (some status))

/-- `postJson`: the body with its catch handler, which turns any thrown error
into an error value carrying the message.  Total by construction. -/
def postJson (parseJson : String → Except String (Option JsonView))
    (f : FetchOutcome) : ApiResult (Option JsonView) :=
  match postJsonBody parseJson f with
  | .ok r => r
  | .error m => .err m none

/-- Outcome of the global `handleFile` past parsing. -/
structure GlobalOutcome where
  items : List Person
  info : Option String
  warnings : List String

/-- The info banner of the fallback branch. -/
def globalFailInfo (status : Option Nat) (added total : Nat) : String :=
  "⚠️ API 미연결(status: " ++ (match status with | some n => toString n | none => "") ++
  ") → 프로토타입용으로 localStorage에 저장했습니다. (추가 " ++ toString added ++
  "명 / 현재 " ++ toString total ++ "명)"

/-- The global `handleFile` after a successful parse: no rows short-circuits;
a failed API call falls back to the local merge `[...mapped, ...items]` (new
first) with the seen-set dedup; a successful call leaves the local items alone. -/
def globalUpload (items : List Person) (rows : List UploadRow) (ws : List String)
    (ids : Nat → String) (now : String) (api : ApiResult BulkResp) : GlobalOutcome :=
  if rows.isEmpty then ⟨items, some "업로드할 유효한 데이터가 없습니다.", ws⟩
  else
    match api with
    | .err _ st =>
        let mapped := mapUpload ids now rows
        let dedup := globalDedup (mapped ++ items)
        ⟨dedup, some (globalFailInfo st mapped.length dedup.length), ws⟩
    | .ok resp =>
        ⟨items, some ("API 등록 완료: " ++ toString resp.inserted ++ "명"), ws⟩

/-- The whole global `handleFile` from the sheet array onward: a parse error is
caught and leaves the items unchanged. -/
def globalHandle (items : List Person) (aoa : List (List String))
    (ids : Nat → String) (now : String) (api : ApiResult BulkResp) : GlobalOutcome :=
  match parseAoaG aoa with
  | .error _ => ⟨items, none, []⟩
  | .ok (rows, ws) => globalUpload items rows ws ids now api

/-! ### Manual registration on the global page (`onRegister`) -/

/-- Outcome of `onRegister`. -/
inductive RegisterResult
  | errName
  | errEmail
  | errDup
  | ok (p : Person)
  deriving DecidableEq

/-- `onRegister`: name is required; a non-empty trimmed email must pass the
format check; then the candidate is rejected as a duplicate when its non-empty
normalized email or non-empty phone-digit key matches an existing record.
(The source also computes an unused composite key string at this point; it does
not affect the result.) -/
def onRegister (id now name email phone company role : String)
    (items : List Person) : RegisterResult :=
  let n := trimStr name
  if n = "" then .errName
  else
    let e := trimStr email
    if e ≠ "" ∧ isValidEmail e = false then .errEmail
    else
      let eKey := if e ≠ "" then normalizeEmail e else ""
      let pKey := if trimStr phone ≠ "" then normalizePhoneDigits phone else ""
      if items.any (fun p =>
          (decide (eKey ≠ "") && decide (eKeyOf p = eKey)) ||
          (decide (pKey ≠ "") && decide (pKeyOf p = pKey))) then .errDup
      else
        .ok { id := id, name := n,
              email := if trimStr email ≠ "" then some (trimStr email) else none,
              phone := if trimStr phone ≠ "" then some (trimStr phone) else none,
              company := if trimStr company ≠ "" then some (trimStr company) else none,
              role := if trimStr role ≠ "" then some (trimStr role) else none,
              createdAt := now }

/-- The items list after `onRegister`: prepended on success, unchanged otherwise. -/
def registerItems (id now name email phone company role : String)
    (items : List Person) : List Person :=
  match onRegister id now name email phone company role items with
  | .ok p => p :: items
  | _ => items

/-! ### Loads from local storage -/

/-- What `JSON.parse` can yield for a stored collection, as far as the loaders
look: an array of records, or any non-array value. -/
inductive StoredVal (α : Type)
  | arr (xs : List α)
  | nonArr

/-- Roster load: what the roster effect does with one parse outcome
(a thrown parse error or a non-array leaves the initial empty list). -/
def loadStoredRoster (v : Except String (StoredVal Participant)) : List Participant :=
  match v with
  | .ok (.arr xs) => xs
  | .ok .nonArr => []
  | .error _ => []

/-- Roster load from the raw stored string (absent key keeps the empty list). -/
def loadRoster (raw : Option String)
    (parse : String → Except String (StoredVal Participant)) : List Participant :=
  match raw with
  | none => []
  | some s => loadStoredRoster (parse s)

/-- A loosely-typed element of the picker's stored array (each field may be
absent). -/
structure DbRaw where
  id : Option String := none
  name : Option String := none
  email : Option String := none
  company : Option String := none
  phone : Option String := none

/-- The picker's `DbParticipant`. -/
structure DbParticipant where
  id : String
  name : String
  email : Option String := none
  company : Option String := none
  phone : Option String := none
  deriving DecidableEq

/-- Element coercion of `loadDbParticipants`: `String(p?.id ?? "")` and
truthiness-guarded optional fields. -/
def coerceDb (r : DbRaw) : DbParticipant :=
  { id := r.id.getD "", name := r.name.getD "",
    email := if r.email.getD "" ≠ "" then some (r.email.getD "") else none,
    company := if r.company.getD "" ≠ "" then some (r.company.getD "") else none,
    phone := if r.phone.getD "" ≠ "" then some (r.phone.getD "") else none }

/-- Picker load: map and keep rows with a non-empty trimmed name; errors and
non-arrays give the empty list. -/
def loadStoredDb (v : Except String (StoredVal DbRaw)) : List DbParticipant :=
  match v with
  | .ok (.arr xs) => (xs.map coerceDb).filter (fun p => trimStr p.name ≠ "")
  | .ok .nonArr => []
  | .error _ => []

/-- Picker load from the raw stored string. -/
def loadDbParticipants (raw : Option String)
    (parse : String → Except String (StoredVal DbRaw)) : List DbParticipant :=
  match raw with
  | none => []
  | some s => loadStoredDb (parse s)

/-- `makeMockParticipants`: the five-record dummy seed (ids and timestamps are
generated; `times k` stands for the ISO string `k` hours in the past). -/
def makeMockParticipants (ids : Nat → String) (times : Nat → String) : List Person :=
  [{ id := ids 0, name := "홍길동", email := some "hong@example.com",
     phone := some "010-1234-5678", company := some "BTWSoft", role := some "매니저",
     createdAt := times 1 },
   { id := ids 1, name := "김철수", email := some "kim@example.com",
     phone := some "010-0000-0000", company := some "Sample Co.", role := some "참가자",
     createdAt := times 5 },
   { id := ids 2, name := "이영희", email := some "lee@example.com",
     phone := some "010-2222-3333", company := some "Alpha Lab", role := some "운영",
     createdAt := times 12 },
   { id := ids 3, name := "박민수", email := some "park@example.com",
     phone := some "010-9999-1111", company := some "Beta Inc.", role := some "게스트",
     createdAt := times 24 },
   { id := ids 4, name := "최지우", email := some "choi@example.com",
     phone := some "010-4444-5555", company := some "Gamma Studio", role := some "스태프",
     createdAt := times 40 }]

/-- Global load with one parse outcome: only a well-formed array is used as is;
a parse error or a non-array yields the mock seed. -/
def loadStoredGlobal (v : Except String (StoredVal Person)) (mocks : List Person) :
    List Person :=
  match v with
  | .ok (.arr xs) => xs
  | .ok .nonArr => mocks
  | .error _ => mocks

/-- Global load from the raw stored string: an absent key also seeds the mocks. -/
def loadGlobal (raw : Option String)
    (parse : String → Except String (StoredVal Person)) (mocks : List Person) :
    List Person :=
  match raw with
  | none => mocks
  | some s => loadStoredGlobal (parse s) mocks

/-- The save effect around `localStorage.setItem`: the write happens when the
store is writable, and in either case no error is surfaced (the catch block
ignores it).  First component: the store afterwards; second: the surfaced
error. -/
def trySave (canWrite : Bool) (store : Option String) (v : String) :
    Option String × Option String :=
  (if canWrite then some v else store, none)

/-! ### Export of the roster collection (template workbook) -/

/-- `TEMPLATE_HEADERS` labels, in order. -/
def templateLabels : List String :=
  ["이름", "이메일", "전화번호", "회사", "직함/역할", "티켓구분", "비고"]

/-- One exported data row: `TEMPLATE_HEADERS.map(h => r[h.key] ?? "")`. -/
def exportRow (r : Participant) : List String :=
  [r.name, r.email.getD "", r.phone.getD "", r.company.getD "", r.role.getD "",
   r.ticketType.getD "", r.note.getD ""]

/-- `makeWorkbookFromParticipants` as a sheet array: header labels, then rows. -/
def exportAoa (rs : List Participant) : List (List String) :=
  templateLabels :: rs.map exportRow

/-! ### Spec-language dedup keys (for comparison with the code keys) -/

/-- The dedup key exactly as the specification words it: the email trimmed and
lower-cased when present and non-empty after trimming; otherwise the composite
of the lower-cased name and the digits-only phone. -/
def specParticipantKey (r : Participant) : String ⊕ (String × String) :=
  if trimStr (r.email.getD "") ≠ "" then .inl (lowerStr (trimStr (r.email.getD "")))
  else .inr (lowerStr r.name, digitsOnly (r.phone.getD ""))

/-- The same spec-language key over picker rows. -/
def specRowKey (r : PickRow) : String ⊕ (String × String) :=
  if trimStr r.email ≠ "" then .inl (lowerStr (trimStr r.email))
  else .inr (lowerStr r.name, digitsOnly r.phone)

/-- Rendering of the spec-language key in the string format the picker uses. -/
def keyRender : String ⊕ (String × String) → String
  | .inl e => "email:" ++ e
  | .inr (n, p) => "name:" ++ n ++ "|phone:" ++ p

/-! ### Lemmas about first-wins dedup -/

theorem dedupAux_append {α : Type} (k : α → String) (xs : List α) :
    ∀ (seen : List String) (ys : List α),
      dedupAux k seen (xs ++ ys) =
        dedupAux k seen xs ++ dedupAux k (seenAfter k seen xs) ys := by
  induction xs with
  | nil => intro seen ys; simp [dedupAux, seenAfter]
  | cons x xs ih =>
      intro seen ys
      by_cases h : k x ∈ seen <;> simp [dedupAux, seenAfter, h, ih]

theorem mem_dedupAux_not_seen {α : Type} (k : α → String) (xs : List α) :
    ∀ (seen : List String) (x : α), x ∈ dedupAux k seen xs → k x ∉ seen := by
  induction xs with
  | nil => intro seen x hx; simp [dedupAux] at hx
  | cons y ys ih =>
      intro seen x hx
      by_cases h : k y ∈ seen
      · exact ih seen x (by simpa [dedupAux, h] using hx)
      · rcases (by simpa [dedupAux, h] using hx : x = y ∨ x ∈ dedupAux k (k y :: seen) ys) with
          rfl | hmem
        · exact h
        · have := ih (k y :: seen) x hmem
          exact fun hc => this (List.mem_cons_of_mem _ hc)

theorem dedupAux_keys_nodup {α : Type} (k : α → String) (xs : List α) :
    ∀ (seen : List String), ((dedupAux k seen xs).map k).Nodup := by
  induction xs with
  | nil => intro seen; simp [dedupAux]
  | cons y ys ih =>
      intro seen
      by_cases h : k y ∈ seen
      · simpa [dedupAux, h] using ih seen
      · simp only [dedupAux, h, if_false, List.map_cons, List.nodup_cons]
        refine ⟨?_, ih _⟩
        intro hmem
        rcases List.mem_map.1 hmem with ⟨z, hz, hkz⟩
        exact (mem_dedupAux_not_seen k ys _ z hz) (by simp [hkz])

theorem dedupAux_eq_self {α : Type} (k : α → String) (xs : List α) :
    ∀ (seen : List String), (∀ x ∈ xs, k x ∉ seen) → ((xs.map k).Nodup) →
      dedupAux k seen xs = xs := by
  induction xs with
  | nil => intro seen _ _; simp [dedupAux]
  | cons y ys ih =>
      intro seen hseen hnd
      have hy : k y ∉ seen := hseen y (List.mem_cons_self _ _)
      simp only [dedupAux, hy, if_false]
      congr 1
      refine ih (k y :: seen) ?_ ?_
      · intro x hx
        simp only [List.mem_cons, not_or]
        constructor
        · intro hkx
          have : k y ∉ ys.map k := (List.nodup_cons.1 (by simpa using hnd)).1
          exact this (hkx ▸ List.mem_map_of_mem k hx)
        · exact hseen x (List.mem_cons_of_mem _ hx)
      · exact (List.nodup_cons.1 (by simpa using hnd)).2

theorem seenAfter_mono {α : Type} (k : α → String) (xs : List α) :
    ∀ (seen : List String) (s : String), s ∈ seen → s ∈ seenAfter k seen xs := by
  induction xs with
  | nil => intro seen s hs; simpa [seenAfter] using hs
  | cons y ys ih =>
      intro seen s hs
      by_cases h : k y ∈ seen
      · simpa [seenAfter, h] using ih seen s hs
      · simp only [seenAfter, h, if_false]
        exact ih _ s (List.mem_cons_of_mem _ hs)

theorem mem_seenAfter {α : Type} (k : α → String) (xs : List α) :
    ∀ (seen : List String) (x : α), x ∈ xs → k x ∈ seenAfter k seen xs := by
  induction xs with
  | nil => intro seen x hx; simp at hx
  | cons y ys ih =>
      intro seen x hx
      by_cases h : k y ∈ seen
      · simp only [seenAfter, h, if_true]
        rcases List.mem_cons.1 hx with rfl | hmem
        · exact seenAfter_mono k ys seen _ h
        · exact ih seen x hmem
      · simp only [seenAfter, h, if_false]
        rcases List.mem_cons.1 hx with rfl | hmem
        · exact seenAfter_mono k ys _ _ (List.mem_cons_self _ _)
        · exact ih _ x hmem

theorem dedupAux_nil_of_seen {α : Type} (k : α → String) (ys : List α) :
    ∀ (seen : List String), (∀ y ∈ ys, k y ∈ seen) → dedupAux k seen ys = [] := by
  induction ys with
  | nil => intro seen _; rfl
  | cons y ys ih =>
      intro seen hall
      have : k y ∈ seen := hall y (List.mem_cons_self _ _)
      simp only [dedupAux, this, if_true]
      exact ih seen (fun z hz => hall z (List.mem_cons_of_mem _ hz))

/-- With an existing block whose keys are distinct, first-wins dedup keeps the
block unchanged as a prefix, and every survivor of the incoming block has a key
absent from the existing block. -/
theorem dedupByKey_existing_wins {α : Type} (k : α → String)
    (existing incoming : List α) (hnd : (existing.map k).Nodup) :
    dedupByKey k (existing ++ incoming) =
      existing ++ dedupAux k (seenAfter k [] existing) incoming ∧
    ∀ s ∈ dedupAux k (seenAfter k [] existing) incoming, k s ∉ existing.map k := by
  constructor
  · rw [dedupByKey, dedupAux_append,
      dedupAux_eq_self k existing [] (by simp) hnd]
  · intro s hs hmem
    rcases List.mem_map.1 hmem with ⟨x, hx, hkx⟩
    have h1 : k x ∈ seenAfter k [] existing := mem_seenAfter k existing [] x hx
    exact (mem_dedupAux_not_seen k incoming _ s hs) (hkx ▸ h1)

/-- Self-merge (and merge of key-covered extras) is the identity for
first-wins dedup. -/
theorem dedupByKey_absorb {α : Type} (k : α → String)
    (existing incoming : List α) (hnd : (existing.map k).Nodup)
    (hsub : ∀ s ∈ incoming, k s ∈ existing.map k) :
    dedupByKey k (existing ++ incoming) = existing := by
  rw [dedupByKey, dedupAux_append,
    dedupAux_eq_self k existing [] (by simp) hnd,
    dedupAux_nil_of_seen, List.append_nil]
  intro y hy
  rcases List.mem_map.1 (hsub y hy) with ⟨x, hx, hkx⟩
  exact hkx ▸ mem_seenAfter k existing [] x hx

/-! ### Lemmas about the global seen-set dedup -/

theorem gdAux_append (xs : List Person) :
    ∀ (se sp : List String) (ys : List Person),
      gdAux se sp (xs ++ ys) =
        gdAux se sp xs ++ gdAux (gAfter se sp xs).1 (gAfter se sp xs).2 ys := by
  induction xs with
  | nil => intro se sp ys; simp [gdAux, gAfter]
  | cons p ps ih =>
      intro se sp ys
      by_cases h : gSkip se sp p <;> simp [gdAux, gAfter, h, ih]

theorem mem_gdAux_not_seen (ps : List Person) :
    ∀ (se sp : List String) (q : Person), q ∈ gdAux se sp ps →
      (eKeyOf q ≠ "" → eKeyOf q ∉ se) ∧ (pKeyOf q ≠ "" → pKeyOf q ∉ sp) := by
  induction ps with
  | nil => intro se sp q hq; simp [gdAux] at hq
  | cons p ps ih =>
      intro se sp q hq
      by_cases h : gSkip se sp p
      · exact ih se sp q (by simpa [gdAux, h] using hq)
      · rcases (by simpa [gdAux, h] using hq : q = p ∨ q ∈ gdAux (gAddE se p) (gAddP sp p) ps) with
          rfl | hmem
        · constructor
          · intro he hin
            exact h (Or.inl ⟨he, hin⟩)
          · intro hp hin
            exact h (Or.inr ⟨hp, hin⟩)
        · have h2 := ih (gAddE se p) (gAddP sp p) q hmem
          constructor
          · intro he hin
            exact h2.1 he (by
              unfold gAddE
              by_cases hc : eKeyOf p ≠ "" <;> simp [hc, List.mem_cons, hin])
          · intro hp hin
            exact h2.2 hp (by
              unfold gAddP
              by_cases hc : pKeyOf p ≠ "" <;> simp [hc, List.mem_cons, hin])

theorem gdAux_pairwise (ps : List Person) :
    ∀ (se sp : List String),
      List.Pairwise (fun p q =>
        (eKeyOf p = "" ∨ eKeyOf p ≠ eKeyOf q) ∧
        (pKeyOf p = "" ∨ pKeyOf p ≠ pKeyOf q)) (gdAux se sp ps) := by
  induction ps with
  | nil => intro se sp; simp [gdAux]
  | cons p ps ih =>
      intro se sp
      by_cases h : gSkip se sp p
      · simpa [gdAux, h] using ih se sp
      · simp only [gdAux, h, if_false, List.pairwise_cons]
        refine ⟨?_, ih _ _⟩
        intro q hq
        have hq2 := mem_gdAux_not_seen ps (gAddE se p) (gAddP sp p) q hq
        constructor
        · by_cases he : eKeyOf p = ""
          · exact Or.inl he
          · refine Or.inr (fun hEq => ?_)
            by_cases heq : eKeyOf q = ""
            · exact he (hEq.trans heq)
            · exact hq2.1 heq (by
                rw [← hEq]
                unfold gAddE
                simp [he])
        · by_cases hp : pKeyOf p = ""
          · exact Or.inl hp
          · refine Or.inr (fun hEq => ?_)
            by_cases hpq : pKeyOf q = ""
            · exact hp (hEq.trans hpq)
            · exact hq2.2 hpq (by
                rw [← hEq]
                unfold gAddP
                simp [hp])

theorem gAfter_mono (ps : List Person) :
    ∀ (se sp : List String) (s : String),
      (s ∈ se → s ∈ (gAfter se sp ps).1) ∧ (s ∈ sp → s ∈ (gAfter se sp ps).2) := by
  induction ps with
  | nil => intro se sp s; simp [gAfter]
  | cons p ps ih =>
      intro se sp s
      by_cases h : gSkip se sp p
      · simpa [gAfter, h] using ih se sp s
      · simp only [gAfter, h, if_false]
        constructor
        · intro hs
          exact (ih (gAddE se p) (gAddP sp p) s).1 (by
            unfold gAddE
            by_cases hc : eKeyOf p ≠ "" <;> simp [hc, List.mem_cons, hs])
        · intro hs
          exact (ih (gAddE se p) (gAddP sp p) s).2 (by
            unfold gAddP
            by_cases hc : pKeyOf p ≠ "" <;> simp [hc, List.mem_cons, hs])

theorem mem_gAfter_of_kept (ps : List Person) :
    ∀ (se sp : List String) (q : Person), q ∈ gdAux se sp ps →
      (eKeyOf q ≠ "" → eKeyOf q ∈ (gAfter se sp ps).1) ∧
      (pKeyOf q ≠ "" → pKeyOf q ∈ (gAfter se sp ps).2) := by
  induction ps with
  | nil => intro se sp q hq; simp [gdAux] at hq
  | cons p ps ih =>
      intro se sp q hq
      by_cases h : gSkip se sp p
      · simpa [gAfter, h] using ih se sp q (by simpa [gdAux, h] using hq)
      · simp only [gAfter, h, if_false]
        rcases (by simpa [gdAux, h] using hq :
            q = p ∨ q ∈ gdAux (gAddE se p) (gAddP sp p) ps) with rfl | hmem
        · constructor
          · intro he
            exact (gAfter_mono ps (gAddE se q) (gAddP sp q) (eKeyOf q)).1 (by
              unfold gAddE; simp [he])
          · intro hp
            exact (gAfter_mono ps (gAddE se q) (gAddP sp q) (pKeyOf q)).2 (by
              unfold gAddP; simp [hp])
        · exact ih _ _ q hmem

theorem gdAux_nil_of_seen (ys : List Person) :
    ∀ (se sp : List String), (∀ p ∈ ys, gSkip se sp p) → gdAux se sp ys = [] := by
  induction ys with
  | nil => intro se sp _; rfl
  | cons p ps ih =>
      intro se sp hall
      have : gSkip se sp p := hall p (List.mem_cons_self _ _)
      simp only [gdAux, this, if_true]
      exact ih se sp (fun q hq => hall q (List.mem_cons_of_mem _ hq))

/-- The global fallback dedup keeps the deduped incoming block as a prefix of
the result: incoming candidates win ties against existing records. -/
theorem globalDedup_incoming_first (mapped items : List Person) :
    globalDedup (mapped ++ items) =
      globalDedup mapped ++
        gdAux (gAfter [] [] mapped).1 (gAfter [] [] mapped).2 items := by
  unfold globalDedup
  exact gdAux_append mapped [] [] items

/-- If the global collection is a fixed point of the dedup and every record has
a usable key, merging it with itself changes nothing. -/
theorem globalDedup_self_absorb (C : List Person) (hfix : globalDedup C = C)
    (hkeys : ∀ p ∈ C, eKeyOf p ≠ "" ∨ pKeyOf p ≠ "") :
    globalDedup (C ++ C) = C := by
  rw [globalDedup_incoming_first, hfix, gdAux_nil_of_seen, List.append_nil]
  intro p hp
  have hkept : p ∈ globalDedup C := by rw [hfix]; exact hp
  have h2 := mem_gAfter_of_kept C [] [] p hkept
  rcases hkeys p hp with he | hph
  · exact Or.inl ⟨he, h2.1 he⟩
  · exact Or.inr ⟨hph, h2.2 hph⟩

/-! ### Lemmas about trimming -/

theorem head_dropWhile_false {α : Type} (p : α → Bool) :
    ∀ (l : List α) (a : α) (rest : List α), l.dropWhile p = a :: rest → p a = false := by
  intro l
  induction l with
  | nil => intro a rest h; simp [List.dropWhile] at h
  | cons x xs ih =>
      intro a rest h
      by_cases hx : p x
      · exact ih a rest (by simpa [List.dropWhile, hx] using h)
      · have : x = a := by
          have h2 : x :: xs = a :: rest := by simpa [List.dropWhile, hx] using h
          exact (List.cons.injEq .. ▸ h2).1
        simpa [← this] using hx

theorem dropWhile_cons_false {α : Type} (p : α → Bool) (a : α) (l : List α)
    (h : p a = false) : (a :: l).dropWhile p = a :: l := by
  simp [List.dropWhile, h]

theorem dropWhile_idem {α : Type} (p : α → Bool) (l : List α) :
    (l.dropWhile p).dropWhile p = l.dropWhile p := by
  cases h : l.dropWhile p with
  | nil => simp
  | cons a rest => exact dropWhile_cons_false p a rest (head_dropWhile_false p l a rest h)

theorem dropWhile_suffix_decomp {α : Type} (p : α → Bool) (l : List α) :
    ∃ t, (∀ x ∈ t, p x = true) ∧ t ++ l.dropWhile p = l := by
  induction l with
  | nil => exact ⟨[], by simp, rfl⟩
  | cons x xs ih =>
      by_cases hx : p x
      · rcases ih with ⟨t, ht, hteq⟩
        exact ⟨x :: t, by
          intro y hy
          rcases List.mem_cons.1 hy with rfl | hmem
          · exact hx
          · exact ht y hmem, by simp [List.dropWhile, hx, hteq]⟩
      · exact ⟨[], by simp, by simp [List.dropWhile, hx]⟩

/-- The first character of a trimmed string is not whitespace. -/
theorem trim_head_no_ws (cs : List Char) (a : Char) (u : List Char)
    (h : trimChars cs = a :: u) : isWsChar a = false := by
  unfold trimChars at h
  exact head_dropWhile_false isWsChar _ a u h

/-- The last character of a trimmed string is not whitespace. -/
theorem trim_last_no_ws (cs : List Char) (b : Char) (v : List Char)
    (h : (trimChars cs).reverse = b :: v) : isWsChar b = false := by
  rcases dropWhile_suffix_decomp isWsChar ((cs.reverse.dropWhile isWsChar).reverse)
    with ⟨t, _, hteq⟩
  have hteq2 : t ++ trimChars cs = (cs.reverse.dropWhile isWsChar).reverse := hteq
  have hXrev : cs.reverse.dropWhile isWsChar = b :: (v ++ t.reverse) := by
    have h3 := congrArg List.reverse hteq2
    rw [List.reverse_append, h] at h3
    simpa using h3.symm
  exact head_dropWhile_false isWsChar _ b _ hXrev

theorem trimChars_idem (cs : List Char) : trimChars (trimChars cs) = trimChars cs := by
  rcases hT : trimChars cs with _ | ⟨a, u⟩
  · rfl
  · have hhead := trim_head_no_ws cs a u hT
    rcases hrev : (a :: u).reverse with _ | ⟨b, v⟩
    · exact absurd hrev (by simp)
    · have hlast : isWsChar b = false := trim_last_no_ws cs b v (by rw [hT, hrev])
      unfold trimChars
      rw [hrev, dropWhile_cons_false _ b v hlast, ← hrev, List.reverse_reverse,
        dropWhile_cons_false _ a u hhead]

theorem trimStr_idem (s : String) : trimStr (trimStr s) = trimStr s := by
  unfold trimStr
  exact congrArg String.mk (trimChars_idem s.data)

theorem dropWhile_eq_self_of_none {α : Type} (p : α → Bool) (l : List α)
    (h : ∀ x ∈ l, p x = false) : l.dropWhile p = l := by
  cases l with
  | nil => rfl
  | cons a xs => exact dropWhile_cons_false p a xs (h a (List.mem_cons_self _ _))

theorem trimChars_eq_self_of_no_ws (cs : List Char)
    (h : ∀ c ∈ cs, isWsChar c = false) : trimChars cs = cs := by
  unfold trimChars
  rw [dropWhile_eq_self_of_none isWsChar cs.reverse
      (fun c hc => h c (List.mem_reverse.1 hc)),
    List.reverse_reverse, dropWhile_eq_self_of_none isWsChar cs h]

theorem ws_not_digit (c : Char) (h : isWsChar c = true) : c.isDigit = false := by
  unfold isWsChar at h
  simp only [Bool.or_eq_true, decide_eq_true_eq] at h
  rcases h with ((((h | h) | h) | h) | h) | h <;> subst h <;> decide

theorem digit_not_ws (c : Char) (h : c.isDigit = true) : isWsChar c = false := by
  cases hw : isWsChar c
  · rfl
  · rw [ws_not_digit c hw] at h; exact absurd h (by simp)

/-- The picker phone key trims a digits-only string: the trim is a no-op, so the
key is exactly the digits of the phone. -/
theorem normalizePhoneKey_eq_digits (s : String) :
    normalizePhoneKey s = digitsOnly s := by
  unfold normalizePhoneKey trimStr digitsOnly
  refine congrArg String.mk (trimChars_eq_self_of_no_ws _ ?_)
  intro c hc
  exact digit_not_ws c (List.of_mem_filter hc)

theorem all_of_dropWhile_all {α : Type} (p : α → Bool) (l : List α)
    (h : ∀ x ∈ l.dropWhile p, p x = true) : ∀ x ∈ l, p x = true := by
  induction l with
  | nil => intro x hx; simp at hx
  | cons a xs ih =>
      intro x hx
      by_cases ha : p a
      · rcases List.mem_cons.1 hx with rfl | hmem
        · exact ha
        · exact ih (by simpa [List.dropWhile, ha] using h) x hmem
      · have := h a (by
          rw [dropWhile_cons_false p a xs (by simpa using ha)]
          exact List.mem_cons_self _ _)
        exact absurd this (by simpa using ha)

/-- A string that trims to empty is all whitespace. -/
theorem all_ws_of_trim_empty (cs : List Char) (h : trimChars cs = []) :
    ∀ c ∈ cs, isWsChar c = true := by
  unfold trimChars at h
  have hX : ∀ c ∈ (cs.reverse.dropWhile isWsChar).reverse, isWsChar c = true := by
    intro c hc
    rcases dropWhile_suffix_decomp isWsChar ((cs.reverse.dropWhile isWsChar).reverse)
      with ⟨t, ht, hteq⟩
    rw [h, List.append_nil] at hteq
    exact ht c (hteq ▸ hc)
  have h4 : ∀ c ∈ cs.reverse, isWsChar c = true :=
    all_of_dropWhile_all isWsChar cs.reverse
      (fun c hc => hX c (List.mem_reverse.2 hc))
  exact fun c hc => h4 c (List.mem_reverse.2 hc)

/-- A phone that trims to the empty string has no digits. -/
theorem digits_empty_of_trim_empty (s : String) (h : trimStr s = "") :
    digitsOnly s = "" := by
  unfold digitsOnly
  have hws : ∀ c ∈ s.data, isWsChar c = true := by
    refine all_ws_of_trim_empty s.data ?_
    have : (trimStr s).data = ("" : String).data := congrArg String.data h
    simpa [trimStr] using this
  refine congrArg String.mk ?_
  rw [List.filter_eq_nil_iff]
  intro c hc
  rw [ws_not_digit c (hws c hc)]
  simp

/-! ### Lemmas about the row parser -/

/-- Closed form of the row loop: accepted records are the rows whose built name
is non-empty, in order; each rejected row contributes exactly one warning with
its 1-based sheet position (the call starts at `i = 1`, so a data row enumerated
from `i + 1` carries its own sheet row number, the header counting as row 1). -/
theorem parseRows_spec {κ ρ : Type} (assign : κ → String → ρ → ρ)
    (getName : ρ → String) (init : ρ) (hm : List (Option κ)) :
    ∀ (rows : List (List String)) (i : Nat),
      parseRows assign getName init hm rows i =
        (rows.filterMap (fun row =>
            if getName (buildObj assign init hm row) = "" then none
            else some (buildObj assign init hm row)),
         (rows.enumFrom (i + 1)).filterMap (fun jr =>
            if getName (buildObj assign init hm jr.2) = "" then some (warnText jr.1)
            else none)) := by
  intro rows
  induction rows with
  | nil => intro i; rfl
  | cons row rest ih =>
      intro i
      by_cases h : getName (buildObj assign init hm row) = "" <;>
        simp [parseRows, List.enumFrom, h, ih (i + 1)]

/-- If every row builds a non-empty name, all rows are accepted in order and no
warning is produced. -/
theorem parseRows_all_accepted {κ ρ : Type} (assign : κ → String → ρ → ρ)
    (getName : ρ → String) (init : ρ) (hm : List (Option κ))
    (rows : List (List String))
    (h : ∀ row ∈ rows, getName (buildObj assign init hm row) ≠ "") :
    ∀ i, parseRows assign getName init hm rows i =
      (rows.map (buildObj assign init hm), []) := by
  induction rows with
  | nil => intro i; rfl
  | cons row rest ih =>
      intro i
      have h1 := h row (List.mem_cons_self _ _)
      simp [parseRows, h1, ih (fun r hr => h r (List.mem_cons_of_mem _ hr)) (i + 1)]

/-- Any predicate preserved by non-empty assignments is preserved by the row
builder. -/
theorem buildAux_preserve {κ ρ : Type} (assign : κ → String → ρ → ρ)
    (row : List String) (P : ρ → Prop)
    (hassign : ∀ f t o, P o → t ≠ "" → P (assign f t o)) :
    ∀ (hm : List (Option κ)) (i : Nat) (o : ρ), P o → P (buildAux assign row hm i o) := by
  intro hm
  induction hm with
  | nil => intro i o ho; exact ho
  | cons k ks ih =>
      intro i o ho
      cases k with
      | none => exact ih (i + 1) o ho
      | some f =>
          simp only [buildAux]
          by_cases ht : trimStr (row.getD i "") = ""
          · rw [if_pos ht]; exact ih (i + 1) o ho
          · rw [if_neg ht]; exact ih (i + 1) _ (hassign f _ o ho ht)

/-- The built name is empty exactly when the record started with an empty name
and every name-mapped cell trims to empty.  `getName`/`assign` must interact as
in the source: only the name key writes the name field. -/
theorem buildAux_name_empty {κ ρ : Type} [DecidableEq κ]
    (assign : κ → String → ρ → ρ) (getName : ρ → String) (nameKey : κ)
    (row : List String)
    (hOther : ∀ f t o, f ≠ nameKey → getName (assign f t o) = getName o)
    (hName : ∀ t o, getName (assign nameKey t o) = t) :
    ∀ (hm : List (Option κ)) (i : Nat) (o : ρ),
      (getName (buildAux assign row hm i o) = "" ↔
        (getName o = "" ∧
          ∀ j, hm.getD j none = some nameKey → trimStr (row.getD (i + j) "") = "")) := by
  intro hm
  induction hm with
  | nil =>
      intro i o
      constructor
      · intro h
        exact ⟨h, by intro j hj; simp [List.getD] at hj⟩
      · intro h; exact h.1
  | cons k ks ih =>
      intro i o
      have hsplit : (∀ j, (k :: ks).getD j none = some nameKey →
            trimStr (row.getD (i + j) "") = "") ↔
          ((k = some nameKey → trimStr (row.getD i "") = "") ∧
            ∀ j, ks.getD j none = some nameKey → trimStr (row.getD (i + 1 + j) "") = "") := by
        constructor
        · intro h
          refine ⟨fun hk => by simpa using h 0 (by simpa using hk), fun j hj => ?_⟩
          have := h (j + 1) (by simpa using hj)
          have harith : i + (j + 1) = i + 1 + j := by omega
          rwa [harith] at this
        · rintro ⟨h0, hS⟩ j hj
          cases j with
          | zero => simpa using h0 (by simpa using hj)
          | succ j =>
              have := hS j (by simpa using hj)
              have harith : i + (j + 1) = i + 1 + j := by omega
              rwa [harith]
      cases k with
      | none =>
          rw [hsplit]
          simp only [buildAux]
          rw [ih (i + 1) o]
          constructor
          · rintro ⟨h1, h2⟩
            exact ⟨h1, by simp, h2⟩
          · rintro ⟨h1, _, h2⟩
            exact ⟨h1, h2⟩
      | some f =>
          rw [hsplit]
          simp only [buildAux]
          by_cases ht : trimStr (row.getD i "") = ""
          · rw [if_pos ht, ih (i + 1) o]
            constructor
            · rintro ⟨h1, h2⟩
              exact ⟨h1, fun _ => ht, h2⟩
            · rintro ⟨h1, _, h2⟩
              exact ⟨h1, h2⟩
          · rw [if_neg ht, ih (i + 1) (assign f _ o)]
            by_cases hf : f = nameKey
            · subst hf
              rw [hName]
              constructor
              · rintro ⟨h1, _⟩
                exact absurd h1 ht
              · rintro ⟨_, h0, _⟩
                exact absurd (h0 (by simp)) ht
            · rw [hOther f _ o hf]
              constructor
              · rintro ⟨h1, h2⟩
                refine ⟨h1, fun hk => absurd (Option.some.inj hk) hf, h2⟩
              · rintro ⟨h1, _, h2⟩
                exact ⟨h1, h2⟩

/-! ### Concrete records used by the claim theorems -/

/-- An existing global record with a normalized-email key. -/
def pOld : Person :=
  { id := "id0", name := "Old", email := some "hong@example.com", createdAt := "t0" }

/-- An incoming upload row with the same email as `pOld` but a different name. -/
def rNew : UploadRow := { name := "New", email := some "hong@example.com" }

/-- Scenario record: existing roster entry, no email, hyphenated phone. -/
def pC : Participant := { name := "C", phone := some "010-1111-2222" }

/-- Scenario record: incoming roster entry, lower-case name, digits-only phone. -/
def pc : Participant := { name := "c", phone := some "01011112222" }

/-- The same scenario pair as picker rows. -/
def rowC : PickRow := { name := "C", phone := "010-1111-2222" }

/-- See `rowC`. -/
def rowc : PickRow := { name := "c", phone := "01011112222" }

/-- Two records with the same name whose phones differ only in formatting. -/
def dupR1 : Participant := { name := "A", phone := some "010-1" }

/-- See `dupR1`. -/
def dupR2 : Participant := { name := "A", phone := some "0101" }

/-- A global record with neither email nor phone. -/
def pNoKey : Person := { id := "i", name := "A", createdAt := "t" }

/-! ### Claim theorems -/

/-- C1 counterexample: at the global-participants upload fallback the merge is
`[...mapped, ...items]` (incoming first), so when an incoming candidate shares
the dedup key of an existing record the INCOMING record is kept and the
existing one is dropped — the merged result is the new record, not the
existing one with its fields unchanged. -/
theorem c1_counterexample :
    (globalUpload [pOld] [rNew] [] (fun _ => "pid") "t1"
        (ApiResult.err "Request failed (404)" (some 404))).items.map (fun p => p.name)
      = ["New"]
  ∧ pOld ∉ (globalUpload [pOld] [rNew] [] (fun _ => "pid") "t1"
        (ApiResult.err "Request failed (404)" (some 404))).items := by
  constructor
  · decide
  · decide

/-- C1 (amended): existing records win ties at the per-event roster merge and
the notification picker: with distinct existing keys the existing collection
survives unchanged as a prefix and every further survivor has a fresh key.  At
the global-participants upload fallback the concatenation order is reversed, so
the deduped incoming block survives as the prefix instead (incoming wins). -/
theorem c1_amended (E N : List Participant) (s : Participant)
    (ER M : List PickRow) (s2 : PickRow) (mapped items : List Person)
    (hE : (E.map rosterKey).Nodup)
    (hs : s ∈ (rosterMerge E N).drop E.length)
    (hER : (ER.map keyOf).Nodup)
    (hs2 : s2 ∈ ((pickerAdd ER M).1).drop ER.length) :
    (rosterMerge E N).take E.length = E
  ∧ rosterKey s ∉ E.map rosterKey
  ∧ ((pickerAdd ER M).1).take ER.length = ER
  ∧ keyOf s2 ∉ ER.map keyOf
  ∧ (globalDedup (mapped ++ items)).take (globalDedup mapped).length
      = globalDedup mapped := by
  obtain ⟨heq, htail⟩ := dedupByKey_existing_wins rosterKey E N hE
  obtain ⟨heq2, htail2⟩ := dedupByKey_existing_wins keyOf ER M hER
  have h1 : rosterMerge E N =
      E ++ dedupAux rosterKey (seenAfter rosterKey [] E) N := heq
  have h2 : (pickerAdd ER M).1 =
      ER ++ dedupAux keyOf (seenAfter keyOf [] ER) M := heq2
  refine ⟨?_, ?_, ?_, ?_, ?_⟩
  · rw [h1, List.take_left]
  · rw [h1, List.drop_left] at hs
    exact htail s hs
  · rw [h2, List.take_left]
  · rw [h2, List.drop_left] at hs2
    exact htail2 s2 hs2
  · rw [globalDedup_incoming_first, List.take_left]

/-- C1 amended, witnessed at concrete inputs. -/
theorem c1_amended_witness :
    ([pC].map rosterKey).Nodup
  ∧ ([rowC].map keyOf).Nodup
  ∧ (rosterMerge [pC] [dupR1]).take 1 = [pC]
  ∧ rosterKey dupR1 ∉ [pC].map rosterKey
  ∧ ((pickerAdd [rowC] [{ name := "B", phone := "123" }]).1).take 1 = [rowC]
  ∧ (globalDedup ([pOld] ++ [pNoKey])).take 1 = globalDedup [pOld] := by
  have h := c1_amended [pC] [dupR1] dupR1 [rowC] [{ name := "B", phone := "123" }]
    { name := "B", phone := "123" } [pOld] [pNoKey]
    (by decide) (by decide) (by decide) (by decide)
  exact ⟨by decide, by decide, h.1, h.2.1, h.2.2.1, h.2.2.2.2⟩

/-- C2 counterexample: the roster merge key lower-cases the raw email and raw
phone without trimming the email or reducing the phone to digits; the scenario
pair (name "C" with phone 010-1111-2222 versus name "c" with phone 01011112222)
receives two different keys there and the incoming record is NOT suppressed. -/
theorem c2_counterexample :
    rosterKey pC ≠ rosterKey pc ∧ rosterMerge [pC] [pc] = [pC, pc] := by
  constructor
  · decide
  · decide

/-- C2 (amended): the claimed dedup key (trimmed lower-cased email when
non-empty after trimming, else lower-cased name with digits-only phone) is the
one computed by the notification picker `keyOf` (which additionally trims the
name), and there the scenario pair is suppressed; the roster merge instead
keys on the untrimmed email or the raw phone, so the same pair survives as two
records there. -/
theorem c2_amended (r : PickRow) (hname : trimStr r.name = r.name) :
    keyOf r = keyRender (specRowKey r)
  ∧ (pickerAdd [rowC] [rowc]).1 = [rowC]
  ∧ (pickerAdd [rowC] [rowc]).2 = []
  ∧ rosterMerge [pC] [pc] = [pC, pc] := by
  refine ⟨?_, by decide, by decide, by decide⟩
  unfold keyOf keyRender specRowKey
  by_cases he : trimStr r.email = ""
  · simp only [he, ne_eq, not_true_eq_false, if_false]
    rw [hname, normalizePhoneKey_eq_digits]
  · simp only [he, ne_eq, not_false_eq_true, if_true]
    unfold normalizeEmailKey
    rw [trimStr_idem]

/-- C2 amended, witnessed at a concrete row. -/
theorem c2_amended_witness :
    trimStr rowc.name = rowc.name
  ∧ keyOf rowc = keyRender (specRowKey rowc)
  ∧ (pickerAdd [rowC] [rowc]).2 = [] := by
  have h := c2_amended rowc (by decide)
  exact ⟨by decide, h.1, h.2.2.1⟩

/-- C3 counterexample: the roster merge dedups under its own raw key, so two
records agreeing on the §3 composite key (same name, phones equal after
digit-normalization but formatted differently) both survive one merge. -/
theorem c3_counterexample :
    rosterMerge [] [dupR1, dupR2] = [dupR1, dupR2]
  ∧ specParticipantKey dupR1 = specParticipantKey dupR2
  ∧ dupR1 ≠ dupR2 := by
  refine ⟨by decide, by decide, by decide⟩

/-- C3 (amended): every merged collection is duplicate-free under the key its
own call site computes: the roster merge and the picker merge have pairwise
distinct keys, and the global fallback result has pairwise distinct non-empty
normalized emails and pairwise distinct non-empty phone-digit keys (records
with neither key are never deduplicated there). -/
theorem c3_amended (E N : List Participant) (ER M : List PickRow) (P : List Person) :
    ((rosterMerge E N).map rosterKey).Nodup
  ∧ (((pickerAdd ER M).1).map keyOf).Nodup
  ∧ List.Pairwise (fun p q =>
      (eKeyOf p = "" ∨ eKeyOf p ≠ eKeyOf q) ∧
      (pKeyOf p = "" ∨ pKeyOf p ≠ pKeyOf q)) (globalDedup P) :=
  ⟨dedupAux_keys_nodup rosterKey (E ++ N) [],
   dedupAux_keys_nodup keyOf (ER ++ M) [],
   gdAux_pairwise P [] []⟩

/-- C4 counterexample: the global fallback merge is not idempotent: a record
with neither email nor phone digits is never marked as seen, so merging a
one-record collection with itself yields two copies. -/
theorem c4_counterexample :
    globalDedup ([pNoKey] ++ [pNoKey]) = [pNoKey, pNoKey]
  ∧ ([pNoKey] : List Person).length = 1 := by
  refine ⟨by decide, by decide⟩

/-- C4 (amended): the per-event roster merge is idempotent (self-merge, and
merge with records whose keys are already present, return the collection
unchanged, hence no growth and no duplicate keys); the global fallback merge is
idempotent only for collections in which every record carries a non-empty
normalized email or non-empty phone digits. -/
theorem c4_amended (C N : List Participant) (P : List Person)
    (hC : (C.map rosterKey).Nodup)
    (hN : ∀ s ∈ N, rosterKey s ∈ C.map rosterKey)
    (hP : globalDedup P = P)
    (hPk : ∀ p ∈ P, eKeyOf p ≠ "" ∨ pKeyOf p ≠ "") :
    rosterMerge C C = C ∧ rosterMerge C N = C ∧ globalDedup (P ++ P) = P :=
  ⟨dedupByKey_absorb rosterKey C C hC (fun _ hs => List.mem_map_of_mem rosterKey hs),
   dedupByKey_absorb rosterKey C N hC hN,
   globalDedup_self_absorb P hP hPk⟩

/-- C4 amended, witnessed at concrete inputs. -/
theorem c4_amended_witness :
    ([pC, dupR1].map rosterKey).Nodup
  ∧ globalDedup [pOld] = [pOld]
  ∧ rosterMerge [pC, dupR1] [pC, dupR1] = [pC, dupR1]
  ∧ rosterMerge [pC, dupR1] [dupR1] = [pC, dupR1]
  ∧ globalDedup ([pOld] ++ [pOld]) = [pOld] := by
  have h := c4_amended [pC, dupR1] [dupR1] [pOld]
    (by decide) (by decide) (by decide) (by decide)
  exact ⟨by decide, by decide, h.1, h.2.1, h.2.2⟩

/-! ### Header-resolution helper lemmas -/

theorem headerMap_no_name {κ : Type} [DecidableEq κ] (t : List (String × κ))
    (nameKey : κ) (header : List String)
    (h : ∀ c ∈ header, resolveCell t (trimStr c) ≠ some nameKey) :
    (headerMapOf t header).any (fun k => decide (k = some nameKey)) = false := by
  cases hany : (headerMapOf t header).any (fun k => decide (k = some nameKey)) with
  | false => rfl
  | true =>
      rcases List.any_eq_true.1 hany with ⟨k, hk, hkey⟩
      rcases List.mem_map.1 hk with ⟨c, hc, rfl⟩
      exact absurd (by simpa using hkey) (h c hc)

theorem headerMap_has_name {κ : Type} [DecidableEq κ] (t : List (String × κ))
    (nameKey : κ) (header : List String)
    (h : ∃ c ∈ header, resolveCell t (trimStr c) = some nameKey) :
    (headerMapOf t header).any (fun k => decide (k = some nameKey)) = true := by
  rcases h with ⟨c, hc, hres⟩
  exact List.any_eq_true.2
    ⟨resolveCell t (trimStr c),
     List.mem_map_of_mem (fun c => resolveCell t (trimStr c)) hc, by simp [hres]⟩

theorem assignR_keeps_name (f : RField) (t : String) (o : Participant)
    (hf : f ≠ RField.name) : (assignR f t o).name = o.name := by
  cases f
  case name => exact absurd rfl hf
  all_goals rfl

theorem assignG_keeps_name (f : GField) (t : String) (o : UploadRow)
    (hf : f ≠ GField.name) : (assignG f t o).name = o.name := by
  cases f
  case name => exact absurd rfl hf
  all_goals rfl

/-- No optional field of a built roster record is the empty string. -/
theorem buildObj_no_empty_fields (hm : List (Option RField)) (row : List String) :
    (buildObj assignR rInit hm row).email ≠ some "" ∧
    (buildObj assignR rInit hm row).phone ≠ some "" ∧
    (buildObj assignR rInit hm row).company ≠ some "" ∧
    (buildObj assignR rInit hm row).role ≠ some "" ∧
    (buildObj assignR rInit hm row).ticketType ≠ some "" ∧
    (buildObj assignR rInit hm row).note ≠ some "" := by
  refine buildAux_preserve assignR row (fun o =>
    o.email ≠ some "" ∧ o.phone ≠ some "" ∧ o.company ≠ some "" ∧
    o.role ≠ some "" ∧ o.ticketType ≠ some "" ∧ o.note ≠ some "") ?_ hm 0 rInit
    (by simp [rInit])
  rintro f s o ⟨h1, h2, h3, h4, h5, h6⟩ hs
  cases f <;> simp [assignR, hs, h1, h2, h3, h4, h5, h6]

/-- No optional field of a built global upload row is the empty string. -/
theorem buildObjG_no_empty_fields (hm : List (Option GField)) (row : List String) :
    (buildObj assignG gInit hm row).email ≠ some "" ∧
    (buildObj assignG gInit hm row).phone ≠ some "" ∧
    (buildObj assignG gInit hm row).company ≠ some "" ∧
    (buildObj assignG gInit hm row).role ≠ some "" := by
  refine buildAux_preserve assignG row (fun o =>
    o.email ≠ some "" ∧ o.phone ≠ some "" ∧ o.company ≠ some "" ∧ o.role ≠ some "") ?_
    hm 0 gInit (by simp [gInit])
  rintro f s o ⟨h1, h2, h3, h4⟩ hs
  cases f <;> simp [assignG, hs, h1, h2, h3, h4]

/-- The built roster name is empty exactly when every name-mapped cell of the
row trims to empty. -/
theorem buildObj_name_empty_iff (hm : List (Option RField)) (row : List String) :
    ((buildObj assignR rInit hm row).name = "" ↔
      ∀ j, hm.getD j none = some RField.name → trimStr (row.getD j "") = "") := by
  have h := buildAux_name_empty assignR (fun o => o.name) RField.name row
    (fun f t o hf => assignR_keeps_name f t o hf) (fun t o => rfl) hm 0 rInit
  simpa [buildObj, rInit] using h

/-- The built global name is empty exactly when every name-mapped cell of the
row trims to empty. -/
theorem buildObjG_name_empty_iff (hm : List (Option GField)) (row : List String) :
    ((buildObj assignG gInit hm row).name = "" ↔
      ∀ j, hm.getD j none = some GField.name → trimStr (row.getD j "") = "") := by
  have h := buildAux_name_empty assignG (fun o => o.name) GField.name row
    (fun f t o hf => assignG_keeps_name f t o hf) (fun t o => rfl) hm 0 gInit
  simpa [buildObj, gInit] using h

/-- C5: when no header cell resolves (directly on the trimmed cell, or through
trim/whitespace-removal/lower-casing) to a name alias, both parsers abort with
the missing-required-column message, no rows are parsed and the stored
collections are unchanged at both upload call sites; conversely any header
containing a name-resolving cell parses successfully. -/
theorem c5_missing_name_column (stored : List Participant)
    (header headerY : List String) (dataRows dataRowsY : List (List String))
    (headerG : List String) (dataRowsG : List (List String))
    (itemsG : List Person) (ids : Nat → String) (now : String)
    (api : ApiResult BulkResp)
    (hNo : ∀ c ∈ header, resolveCell rosterAliases (trimStr c) ≠ some RField.name)
    (hNoG : ∀ c ∈ headerG, resolveCell globalAliases (trimStr c) ≠ some GField.name)
    (hYes : ∃ c ∈ headerY, resolveCell rosterAliases (trimStr c) = some RField.name) :
    parseAoa (header :: dataRows) = .error missingNameMsg
  ∧ rosterUpload stored (header :: dataRows) = ⟨stored, [], some missingNameMsg⟩
  ∧ parseAoaG (headerG :: dataRowsG) = .error missingNameMsg
  ∧ (globalHandle itemsG (headerG :: dataRowsG) ids now api).items = itemsG
  ∧ ∃ res, parseAoa (headerY :: dataRowsY) = .ok res := by
  have h1 : parseAoa (header :: dataRows) = .error missingNameMsg := by
    simp [parseAoa, headerMap_no_name rosterAliases RField.name header hNo]
  have h3 : parseAoaG (headerG :: dataRowsG) = .error missingNameMsg := by
    simp [parseAoaG, headerMap_no_name globalAliases GField.name headerG hNoG]
  refine ⟨h1, ?_, h3, ?_, ?_⟩
  · simp [rosterUpload, h1]
  · simp [globalHandle, h3]
  · refine ⟨parseRows assignR (fun o => o.name) rInit
      (headerMapOf rosterAliases headerY) dataRowsY 1, ?_⟩
    simp [parseAoa, headerMap_has_name rosterAliases RField.name headerY hYes]

/-- C5, witnessed on the spec scenarios: `[["이메일"],["a@example.com"]]` aborts
and leaves the stored collections unchanged, while a header containing `이름`
parses. -/
theorem c5_missing_name_column_witness :
    parseAoa [["이메일"], ["a@example.com"]] = .error missingNameMsg
  ∧ rosterUpload [pC] [["이메일"], ["a@example.com"]] = ⟨[pC], [], some missingNameMsg⟩
  ∧ parseAoaG [["이메일"], ["a@example.com"]] = .error missingNameMsg
  ∧ (globalHandle [pOld] [["이메일"], ["a@example.com"]] (fun _ => "pid") "t"
      (ApiResult.err "m" none)).items = [pOld]
  ∧ ∃ res, parseAoa [["이름"], ["홍길동"]] = .ok res := by
  have h := c5_missing_name_column [pC] ["이메일"] ["이름"] [["a@example.com"]]
    [["홍길동"]] ["이메일"] [["a@example.com"]] [pOld] (fun _ => "pid") "t"
    (ApiResult.err "m" none) (by decide) (by decide) (by decide)
  exact h

/-- C6: with a name column resolved, the roster and global row parsers accept
exactly the data rows whose built name is non-empty, in original order, and
emit exactly one warning per rejected row carrying its 1-based sheet position
(data row at 0-based offset `j` is sheet row `j + 2`, the header counting as
row 1); a built name is empty exactly when every name-mapped, trimmed cell of
the row is empty; and no optional field of a built record is ever the empty
string. -/
theorem c6_row_rejection (header : List String) (dataRows : List (List String))
    (row : List String) (headerG : List String) (dataRowsG : List (List String))
    (rowG : List String)
    (hName : (headerMapOf rosterAliases header).any
      (fun k => decide (k = some RField.name)) = true)
    (hNameG : (headerMapOf globalAliases headerG).any
      (fun k => decide (k = some GField.name)) = true) :
    parseAoa (header :: dataRows) = .ok
      (dataRows.filterMap (fun r =>
          if (buildObj assignR rInit (headerMapOf rosterAliases header) r).name = ""
          then none
          else some (buildObj assignR rInit (headerMapOf rosterAliases header) r)),
       (dataRows.enumFrom 2).filterMap (fun jr =>
          if (buildObj assignR rInit (headerMapOf rosterAliases header) jr.2).name = ""
          then some (warnText jr.1) else none))
  ∧ parseAoaG (headerG :: dataRowsG) = .ok
      (dataRowsG.filterMap (fun r =>
          if (buildObj assignG gInit (headerMapOf globalAliases headerG) r).name = ""
          then none
          else some (buildObj assignG gInit (headerMapOf globalAliases headerG) r)),
       (dataRowsG.enumFrom 2).filterMap (fun jr =>
          if (buildObj assignG gInit (headerMapOf globalAliases headerG) jr.2).name = ""
          then some (warnText jr.1) else none))
  ∧ ((buildObj assignR rInit (headerMapOf rosterAliases header) row).name = "" ↔
      ∀ j, (headerMapOf rosterAliases header).getD j none = some RField.name →
        trimStr (row.getD j "") = "")
  ∧ ((buildObj assignG gInit (headerMapOf globalAliases headerG) rowG).name = "" ↔
      ∀ j, (headerMapOf globalAliases headerG).getD j none = some GField.name →
        trimStr (rowG.getD j "") = "")
  ∧ (buildObj assignR rInit (headerMapOf rosterAliases header) row).email ≠ some ""
  ∧ (buildObj assignR rInit (headerMapOf rosterAliases header) row).phone ≠ some ""
  ∧ (buildObj assignR rInit (headerMapOf rosterAliases header) row).note ≠ some ""
  ∧ (buildObj assignG gInit (headerMapOf globalAliases headerG) rowG).email ≠ some ""
  ∧ (buildObj assignG gInit (headerMapOf globalAliases headerG) rowG).phone ≠ some "" := by
  obtain ⟨he1, he2, _, _, _, he6⟩ :=
    buildObj_no_empty_fields (headerMapOf rosterAliases header) row
  obtain ⟨hg1, hg2, _, _⟩ :=
    buildObjG_no_empty_fields (headerMapOf globalAliases headerG) rowG
  refine ⟨?_, ?_,
    buildObj_name_empty_iff (headerMapOf rosterAliases header) row,
    buildObjG_name_empty_iff (headerMapOf globalAliases headerG) rowG,
    he1, he2, he6, hg1, hg2⟩
  · simp only [parseAoa, hName, if_true]
    rw [parseRows_spec]
  · simp only [parseAoaG, hNameG, if_true]
    rw [parseRows_spec]

/-- C6, witnessed on the spec scenario `[["이름","이메일"],["홍길동","hong@example.com"],["",""]]`:
one accepted record, one warning naming sheet row 3. -/
theorem c6_row_rejection_witness :
    parseAoa [["이름", "이메일"], ["홍길동", "hong@example.com"], ["", ""]] = .ok
      ([{ name := "홍길동", email := some "hong@example.com" }],
       ["3행: 이름이 비어 있어 제외했습니다."])
  ∧ ((buildObj assignR rInit (headerMapOf rosterAliases ["이름", "이메일"]) ["", ""]).name = "" ↔
      ∀ j, (headerMapOf rosterAliases ["이름", "이메일"]).getD j none = some RField.name →
        trimStr ((["", ""] : List String).getD j "") = "") := by
  have h := c6_row_rejection ["이름", "이메일"] [["홍길동", "hong@example.com"], ["", ""]]
    ["", ""] ["이름", "이메일"] [["홍길동", "hong@example.com"], ["", ""]] ["", ""]
    (by decide) (by decide)
  refine ⟨?_, h.2.2.1⟩
  rw [h.1]
  exact congrArg Except.ok (by decide)

/-! ### Round-trip lemmas -/

theorem trimStr_empty : trimStr "" = "" := by decide

/-- A field value unaffected by the import trim: absent, or non-empty and
trim-stable. -/
def optTrimmed : Option String → Prop
  | none => True
  | some v => trimStr v = v ∧ v ≠ ""

/-- The role column label of the export (`직함/역할`) resolves to no roster
alias, so re-import drops the role field. -/
def dropRole (r : Participant) : Participant := { r with role := none }

theorem templateHeaderMap :
    headerMapOf rosterAliases templateLabels =
      [some RField.name, some RField.email, some RField.phone, some RField.company,
       none, some RField.ticketType, some RField.note] := by decide

theorem buildObj_exportRow (r : Participant) (hn : trimStr r.name = r.name)
    (hn0 : r.name ≠ "") (he : optTrimmed r.email) (hp : optTrimmed r.phone)
    (hc : optTrimmed r.company) (ht : optTrimmed r.ticketType)
    (hno : optTrimmed r.note) :
    buildObj assignR rInit (headerMapOf rosterAliases templateLabels) (exportRow r)
      = dropRole r := by
  rw [templateHeaderMap]
  obtain ⟨n, e, p, c, ro, t, no⟩ := r
  simp only [optTrimmed] at he hp hc ht hno
  rcases e with _ | ev <;> rcases p with _ | pv <;> rcases c with _ | cv <;>
    rcases t with _ | tv <;> rcases no with _ | nov <;>
    simp_all [buildObj, buildAux, exportRow, assignR, dropRole, rInit,
      List.getD_cons_zero, List.getD_cons_succ, trimStr_empty]

/-- The roster key ignores the role field. -/
theorem rosterKey_dropRole (r : Participant) : rosterKey (dropRole r) = rosterKey r := rfl

/-- C7 counterexample: a stored field value with trailing whitespace is trimmed
by re-import, so the round-tripped collection has a different dedup-key set:
the email-trailing-space record comes back with a trimmed email and a different
roster key. -/
theorem c7_counterexample :
    parseAoa (exportAoa [{ name := "A", email := some "x@y.com " }]) =
      .ok ([{ name := "A", email := some "x@y.com" }], [])
  ∧ rosterKey { name := "A", email := some "x@y.com" } ≠
      rosterKey { name := "A", email := some "x@y.com " } := by
  constructor
  · rfl
  · decide

/-- C7 (amended): for stored collections whose records have trim-stable
non-empty names and absent-or-trim-stable-non-empty optional fields,
exporting with the template labels and re-importing yields the same records
with only the role dropped (its exported label `직함/역할` resolves to no
roster alias), no warnings, and an unchanged list of dedup keys; every other
template column maps back to its field. -/
theorem c7_amended (C : List Participant)
    (h : ∀ r ∈ C, trimStr r.name = r.name ∧ r.name ≠ "" ∧ optTrimmed r.email ∧
      optTrimmed r.phone ∧ optTrimmed r.company ∧ optTrimmed r.ticketType ∧
      optTrimmed r.note) :
    parseAoa (exportAoa C) = .ok (C.map dropRole, [])
  ∧ (C.map dropRole).map rosterKey = C.map rosterKey
  ∧ headerMapOf rosterAliases templateLabels =
      [some RField.name, some RField.email, some RField.phone, some RField.company,
       none, some RField.ticketType, some RField.note] := by
  have hbuild : ∀ r ∈ C,
      buildObj assignR rInit (headerMapOf rosterAliases templateLabels) (exportRow r)
        = dropRole r := by
    intro r hr
    obtain ⟨h1, h2, h3, h4, h5, h6, h7⟩ := h r hr
    exact buildObj_exportRow r h1 h2 h3 h4 h5 h6 h7
  have hname : ∀ row ∈ C.map exportRow,
      (buildObj assignR rInit (headerMapOf rosterAliases templateLabels) row).name ≠ "" := by
    intro row hrow
    rcases List.mem_map.1 hrow with ⟨r, hr, rfl⟩
    rw [hbuild r hr]
    exact (h r hr).2.1
  have hparse := parseRows_all_accepted assignR (fun o => o.name) rInit
    (headerMapOf rosterAliases templateLabels) (C.map exportRow) hname 1
  refine ⟨?_, ?_, templateHeaderMap⟩
  · have hany : (headerMapOf rosterAliases templateLabels).any
        (fun k => decide (k = some RField.name)) = true := by decide
    show parseAoa (templateLabels :: C.map exportRow) = .ok (C.map dropRole, [])
    simp only [parseAoa, hany, if_true]
    rw [hparse]
    refine congrArg Except.ok ?_
    refine congrArg (fun l => (l, ([] : List String))) ?_
    rw [List.map_map]
    exact List.map_congr_left (fun r hr => hbuild r hr)
  · rw [List.map_map]
    exact List.map_congr_left (fun r _ => rosterKey_dropRole r)

/-- C7 amended, witnessed at a concrete trim-stable collection. -/
theorem c7_amended_witness :
    parseAoa (exportAoa [pC]) = .ok ([pC].map dropRole, [])
  ∧ ([pC].map dropRole).map rosterKey = [pC].map rosterKey := by
  have h := c7_amended [pC] (by
    intro r hr
    rcases List.mem_cons.1 hr with rfl | hmem
    · exact ⟨by decide, by decide, trivial, ⟨by decide, by decide⟩, trivial, trivial, trivial⟩
    · simp at hmem)
  exact ⟨h.1, h.2.1⟩

/-! ### Lemmas about the manual-registration duplicate test -/

theorem normalizeEmail_trim (email : String) :
    normalizeEmail (trimStr email) = normalizeEmail email := by
  unfold normalizeEmail
  rw [trimStr_idem]

theorem normalizeEmail_ne_empty (email : String) (h : trimStr email ≠ "") :
    normalizeEmail email ≠ "" := by
  unfold normalizeEmail lowerStr
  intro hc
  apply h
  have hdata : (trimStr email).data = [] :=
    List.map_eq_nil_iff.1 (congrArg String.data hc)
  exact String.ext hdata

theorem pKey_eq_digits (phone : String) (h : digitsOnly phone ≠ "") :
    (if trimStr phone ≠ "" then normalizePhoneDigits phone else "") = digitsOnly phone := by
  have htrim : trimStr phone ≠ "" := fun hc => h (digits_empty_of_trim_empty phone hc)
  simp [htrim, normalizePhoneDigits]

theorem pKey_empty_of_digits_empty (phone : String) (h : digitsOnly phone = "") :
    (if trimStr phone ≠ "" then normalizePhoneDigits phone else "") = "" := by
  by_cases htrim : trimStr phone = "" <;> simp [htrim, normalizePhoneDigits, h]

/-- The duplicate rejection of `onRegister`, for a candidate passing the name
and email-format validations, holds exactly when a non-empty normalized email
matches an existing normalized email or non-empty phone digits match existing
phone digits. -/
theorem onRegister_dup_iff (id now name email phone company role : String)
    (items : List Person) (h1 : trimStr name ≠ "")
    (h2 : trimStr email ≠ "" → isValidEmail (trimStr email) = true) :
    (onRegister id now name email phone company role items = RegisterResult.errDup ↔
      ((trimStr email ≠ "" ∧ ∃ p ∈ items, eKeyOf p = normalizeEmail email) ∨
       (digitsOnly phone ≠ "" ∧ ∃ p ∈ items, pKeyOf p = digitsOnly phone))) := by
  have hvalid : ¬(trimStr email ≠ "" ∧ isValidEmail (trimStr email) = false) := by
    rintro ⟨hne, hval⟩
    rw [h2 hne] at hval
    simp at hval
  have hok : ∀ r : Person, (RegisterResult.ok r = RegisterResult.errDup) ↔ False := by
    intro r
    constructor
    · intro h; exact RegisterResult.noConfusion h
    · intro h; exact h.elim
  simp only [onRegister]
  rw [if_neg h1, if_neg hvalid, ite_eq_iff]
  simp only [List.any_eq_true, Bool.or_eq_true, Bool.and_eq_true, decide_eq_true_eq,
    hok, and_true, and_false, or_false]
  by_cases he : trimStr email = ""
  · have hifE : (if trimStr email ≠ "" then normalizeEmail (trimStr email) else "") = "" := by
      simp [he]
    rw [hifE]
    by_cases hd : digitsOnly phone = ""
    · rw [pKey_empty_of_digits_empty phone hd]
      simp [he, hd]
    · rw [pKey_eq_digits phone hd]
      simp [he, hd]
  · have hifE : (if trimStr email ≠ "" then normalizeEmail (trimStr email) else "")
        = normalizeEmail email := by simp [he, normalizeEmail_trim]
    rw [hifE]
    have hne2 := normalizeEmail_ne_empty email he
    by_cases hd : digitsOnly phone = ""
    · rw [pKey_empty_of_digits_empty phone hd]
      simp [he, hd, hne2, and_or_left, exists_or]
    · rw [pKey_eq_digits phone hd]
      simp [he, hd, hne2, and_or_left, exists_or]

theorem data_append (s t : String) : (s ++ t).data = s.data ++ t.data := by
  cases s
  cases t
  rfl

/-- The fallback info banner starts with the API-failure warning tag. -/
theorem globalFailInfo_tag (st : Option Nat) (a b : Nat) :
    (globalFailInfo st a b).data.take ("⚠️ API 미연결".data.length)
      = "⚠️ API 미연결".data := by
  unfold globalFailInfo
  simp only [data_append, List.append_assoc]
  rw [List.take_append_of_le_length (by decide)]
  decide

/-- C8: on the global-participants upload, a successful remote call leaves the
local items untouched, while a failed call (any status) falls back to the local
merge of the parsed rows and surfaces an info banner starting with the
API-failure warning tag; the remote helper never throws — a network error, a
response-body parse failure, an empty success body and a non-ok response all
come back as plain success/error values, the non-ok case carrying the status
and the message from the response body (or a fixed fallback). -/
theorem c8_remote_fallback (items : List Person) (rows : List UploadRow)
    (ws : List String) (ids : Nat → String) (now : String) (resp : BulkResp)
    (m m2 em text text2 : String) (st : Option Nat) (ok2 : Bool)
    (st2 st3 st4 : Nat) (jv : Option JsonView)
    (pjA pjB : String → Except String (Option JsonView))
    (hrows : rows ≠ []) (htext : text ≠ "") (hpjA : pjA text = .error em)
    (htext2 : text2 ≠ "") (hpjB : pjB text2 = .ok jv) :
    (globalUpload items rows ws ids now (ApiResult.ok resp)).items = items
  ∧ (globalUpload items rows ws ids now (ApiResult.err m st)).items
      = globalDedup (mapUpload ids now rows ++ items)
  ∧ ((globalUpload items rows ws ids now (ApiResult.err m st)).info.getD "").data.take
      ("⚠️ API 미연결".data.length) = "⚠️ API 미연결".data
  ∧ postJson pjA (FetchOutcome.netErr m2) = ApiResult.err m2 none
  ∧ postJson pjA (FetchOutcome.resp ok2 st2 text) = ApiResult.err em none
  ∧ postJson pjB (FetchOutcome.resp true st3 "") = ApiResult.ok none
  ∧ postJson pjB (FetchOutcome.resp false st4 text2)
      = ApiResult.err ((jv.bind (fun j => j.message)).getD
          ("Request failed (" ++ toString st4 ++ ")")) (some st4) := by
  have hre : rows.isEmpty = false := by
    cases rows with
    | nil => exact absurd rfl hrows
    | cons a l => rfl
  have hinfo : (globalUpload items rows ws ids now (ApiResult.err m st)).info
      = some (globalFailInfo st (mapUpload ids now rows).length
          (globalDedup (mapUpload ids now rows ++ items)).length) := by
    simp [globalUpload, hre]
  refine ⟨?_, ?_, ?_, rfl, ?_, rfl, ?_⟩
  · simp [globalUpload, hre]
  · simp [globalUpload, hre]
  · rw [hinfo, Option.getD_some]
    exact globalFailInfo_tag st _ _
  · simp only [postJson, postJsonBody]
    rw [if_neg htext, hpjA]
    rfl
  · simp only [postJson, postJsonBody]
    rw [if_neg htext2, hpjB]
    rfl

/-- C8, witnessed at concrete inputs. -/
theorem c8_remote_fallback_witness :
    ([rNew] : List UploadRow) ≠ []
  ∧ (globalUpload [pOld] [rNew] [] (fun _ => "pid") "t1"
      (ApiResult.ok ⟨3, none⟩)).items = [pOld]
  ∧ (globalUpload [pOld] [rNew] [] (fun _ => "pid") "t1"
      (ApiResult.err "m" (some 404))).items
      = globalDedup (mapUpload (fun _ => "pid") "t1" [rNew] ++ [pOld])
  ∧ postJson (fun _ => Except.error "bad json") (FetchOutcome.netErr "netdown")
      = ApiResult.err "netdown" none
  ∧ postJson (fun _ => Except.error "bad json") (FetchOutcome.resp true 200 "x")
      = ApiResult.err "bad json" none := by
  have h := c8_remote_fallback [pOld] [rNew] [] (fun _ => "pid") "t1" ⟨3, none⟩
    "m" "netdown" "bad json" "x" "y" (some 404) true 200 201 500 (some ⟨some "msg"⟩)
    (fun _ => Except.error "bad json") (fun _ => Except.ok (some ⟨some "msg"⟩))
    (by decide) (by decide) rfl (by decide) rfl
  exact ⟨by decide, h.1, h.2.1, h.2.2.2.1, h.2.2.2.2.1⟩

/-- C9 counterexample: the global-participants load does not treat an absent
collection as empty: it seeds the five-record mock collection (a non-array or
unparseable stored value does the same). -/
theorem c9_counterexample :
    loadGlobal none (fun _ => Except.ok StoredVal.nonArr)
      (makeMockParticipants (fun n => toString n) (fun n => toString n)) ≠ []
  ∧ (loadGlobal none (fun _ => Except.ok StoredVal.nonArr)
      (makeMockParticipants (fun n => toString n) (fun n => toString n))).length = 5 := by
  refine ⟨by decide, by decide⟩

/-- C9 (amended): the roster and picker loads treat an absent, unparseable or
non-array stored value as the empty collection; the global-participants load
instead seeds the five-record mock collection in those cases; no load
propagates a storage error, and a failed write is swallowed (no error is ever
surfaced by the save effect). -/
theorem c9_amended (e : String) (pj : String → Except String (StoredVal Participant))
    (pjD : String → Except String (StoredVal DbRaw))
    (pjG : String → Except String (StoredVal Person))
    (ids times : Nat → String) (b : Bool) (st : Option String) (v : String) :
    loadRoster none pj = []
  ∧ loadStoredRoster (.error e) = []
  ∧ loadStoredRoster (.ok .nonArr) = []
  ∧ loadDbParticipants none pjD = []
  ∧ loadStoredDb (.error e) = []
  ∧ loadStoredDb (.ok .nonArr) = []
  ∧ loadGlobal none pjG (makeMockParticipants ids times) = makeMockParticipants ids times
  ∧ loadStoredGlobal (.error e) (makeMockParticipants ids times)
      = makeMockParticipants ids times
  ∧ loadStoredGlobal (.ok .nonArr) (makeMockParticipants ids times)
      = makeMockParticipants ids times
  ∧ (trySave b st v).2 = none :=
  ⟨rfl, rfl, rfl, rfl, rfl, rfl, rfl, rfl, rfl, rfl⟩

/-- C10: a validated candidate (non-empty trimmed name, well-formed non-empty
email if any) is rejected as a duplicate exactly when its non-empty normalized
email matches some existing normalized email or its non-empty phone digits
match some existing phone digits; the name takes no part (swapping it for any
other valid name leaves the decision unchanged); and a rejected registration
leaves the stored collection unchanged. -/
theorem c10_manual_duplicate (id now name name2 email phone company role : String)
    (items : List Person) (h1 : trimStr name ≠ "") (h1b : trimStr name2 ≠ "")
    (h2 : trimStr email ≠ "" → isValidEmail (trimStr email) = true) :
    (onRegister id now name email phone company role items = RegisterResult.errDup ↔
      ((trimStr email ≠ "" ∧ ∃ p ∈ items, eKeyOf p = normalizeEmail email) ∨
       (digitsOnly phone ≠ "" ∧ ∃ p ∈ items, pKeyOf p = digitsOnly phone)))
  ∧ (onRegister id now name2 email phone company role items = RegisterResult.errDup ↔
      onRegister id now name email phone company role items = RegisterResult.errDup)
  ∧ (onRegister id now name email phone company role items = RegisterResult.errDup →
      registerItems id now name email phone company role items = items) := by
  refine ⟨onRegister_dup_iff id now name email phone company role items h1 h2, ?_, ?_⟩
  · exact (onRegister_dup_iff id now name2 email phone company role items h1b h2).trans
      (onRegister_dup_iff id now name email phone company role items h1 h2).symm
  · intro hdup
    unfold registerItems
    rw [hdup]

/-- An existing global record whose phone matches the C10 witness candidate. -/
def kimP : Person :=
  { id := "i0", name := "Kim", phone := some "010-1111-2222", createdAt := "t" }

/-- C10, witnessed: a candidate with a different name, no email, and the same
phone digits as `kimP` is rejected and the collection is unchanged. -/
theorem c10_manual_duplicate_witness :
    trimStr "Lee" ≠ ""
  ∧ onRegister "i1" "t1" "Lee" "" "01011112222" "" "" [kimP] = RegisterResult.errDup
  ∧ registerItems "i1" "t1" "Lee" "" "01011112222" "" "" [kimP] = [kimP] := by
  have h := c10_manual_duplicate "i1" "t1" "Lee" "Park" "" "01011112222" "" "" [kimP]
    (by decide) (by decide) (fun hc => absurd trimStr_empty hc)
  have hdup : onRegister "i1" "t1" "Lee" "" "01011112222" "" "" [kimP]
      = RegisterResult.errDup := h.1.mpr (by decide)
  exact ⟨by decide, hdup, h.2.2 hdup⟩

example : trimStr "  a b " = "a b" := by decide
example : sanitizeHeader " 이 름 " = "이름" := by decide
example : digitsOnly "010-1111-2222" = "01011112222" := by decide
example : resolveCell rosterAliases "Name" = some RField.name := by decide
example : resolveCell rosterAliases "직함/역할" = none := by decide
example :
    rosterKey { name := "C", phone := some "010-1111-2222" } =
      "name:c|phone:010-1111-2222" := by decide
